import Mathlib

/-!
Shallow embedding of the core logic of the streamlit-stock-dashboard
repository: the paper-trading ledger (`src/paper_trading.py`), the price
alert engine (`src/price_alerts.py`), the RSI indicator
(`src/indicators.py`), the OHLCV resampler (`src/data_fetcher.py`) and the
batched quote fetch (`src/realtime_prices.py`).

Modelling conventions:
* Python floats for money and prices are modelled as `ℚ`; share
  quantities as `ℤ` (the code performs no positivity check on them).
* Python dicts keyed by ticker are association lists with
  insert-or-replace-in-place semantics (`dictInsert`) and key removal
  (`dictErase`), mirroring insertion-order-preserving dict updates.
* Timestamps (`datetime.now()` fields on Trade/Position/Alert) carry no
  logic and are omitted.
* The external market-data provider is a parameter
  `quote : String → Option ℚ`: `none` means the provider could not
  produce a price for that ticker (the `get_live_price` failure path).
* IEEE-754 special values, on which `calculate_rsi` relies for its
  division by a zero average loss, are modelled by the type `FV`
  (finite rational / +inf / -inf / NaN) with IEEE-style arithmetic.
-/

namespace StockDash

/-- CPython's `str.upper()` on one character, for the ASCII ticker
strings this code handles: `a`-`z` (codepoints 97-122) map to `A`-`Z`,
everything else is unchanged.  (CPython applies the full Unicode
uppercase mapping; on ASCII input, which is all a ticker symbol can be,
the two agree.) -/
def pyUpperChar (c : Char) : Char :=
  if 97 ≤ c.toNat ∧ c.toNat ≤ 122 then Char.ofNat (c.toNat - 32) else c

/-- CPython's `str.upper()`: uppercase every character. -/
def pyUpper (s : String) : String := ⟨s.data.map pyUpperChar⟩

/-! ## Ledger: src/paper_trading.py -/

/-- Result of `PaperTradingAccount.execute_trade`.  The Python function
returns `(False, message)` on the three rejection branches and
`(True, message)` on success; the message strings carry no extra state. -/
inductive TradeResult where
  | ok
  | insufficientFunds
  | insufficientShares
  | invalidTradeType
  deriving DecidableEq, Repr

/-- `Trade.__init__` (src/paper_trading.py lines 12-18).  The
`timestamp` field is omitted; `total_value` is the derived
`quantity * price`. -/
structure Trade where
  ticker : String
  trade_type : String
  quantity : ℤ
  price : ℚ
  deriving DecidableEq, Repr

def Trade.total_value (t : Trade) : ℚ := t.quantity * t.price

/-- Constructor `Trade(ticker, trade_type, quantity, price)`: the ticker
is uppercased (`ticker.upper()`). -/
def Trade.init (ticker trade_type : String) (quantity : ℤ) (price : ℚ) : Trade :=
  { ticker := pyUpper ticker, trade_type := trade_type, quantity := quantity, price := price }

/-- `Position` (src/paper_trading.py lines 31-74). -/
structure Position where
  ticker : String
  quantity : ℤ
  avg_price : ℚ
  total_cost : ℚ
  deriving DecidableEq, Repr

/-- `Position.__init__`: uppercased ticker, zero quantity/avg/cost. -/
def Position.init (ticker : String) : Position :=
  { ticker := pyUpper ticker, quantity := 0, avg_price := 0, total_cost := 0 }

/-- `Position.add_shares(quantity, price)` (lines 40-49): accumulate cost
and quantity; recompute the average price only when the new quantity is
positive. -/
def Position.add_shares (p : Position) (quantity : ℤ) (price : ℚ) : Position :=
  let new_total_cost := p.total_cost + quantity * price
  let new_quantity := p.quantity + quantity
  { p with
    avg_price := if 0 < new_quantity then new_total_cost / new_quantity else p.avg_price
    quantity := new_quantity
    total_cost := new_total_cost }

/-- `Position.remove_shares(quantity)` (lines 51-59): subtract quantity;
a result ≤ 0 zeroes the position, otherwise the total cost is recomputed
as `quantity * avg_price` with the average price unchanged. -/
def Position.remove_shares (p : Position) (quantity : ℤ) : Position :=
  let q := p.quantity - quantity
  if q ≤ 0 then { p with quantity := 0, avg_price := 0, total_cost := 0 }
  else { p with quantity := q, total_cost := q * p.avg_price }

/-- `Position.get_current_value(current_price)` (lines 61-63). -/
def Position.get_current_value (p : Position) (current_price : ℚ) : ℚ :=
  p.quantity * current_price

/-- Python dict update `d[k] = v`: replace the value in place when the key
exists, else append the new binding (dicts preserve insertion order). -/
def dictInsert (m : List (String × Position)) (k : String) (v : Position) :
    List (String × Position) :=
  if (m.lookup k).isSome then
    m.map (fun kv => if kv.1 = k then (k, v) else kv)
  else m ++ [(k, v)]

/-- Python dict removal `del d[k]`. -/
def dictErase (m : List (String × Position)) (k : String) : List (String × Position) :=
  m.filter (fun kv => kv.1 ≠ k)

/-- `PaperTradingAccount` state (lines 76-84); `created_at` omitted. -/
structure Account where
  initial_balance : ℚ
  cash_balance : ℚ
  positions : List (String × Position)
  trade_history : List Trade
  deriving DecidableEq, Repr

/-- `PaperTradingAccount.__init__(initial_balance)`. -/
def Account.init (initial_balance : ℚ) : Account :=
  { initial_balance := initial_balance
    cash_balance := initial_balance
    positions := []
    trade_history := [] }

/-- `PaperTradingAccount.execute_trade(ticker, trade_type, quantity, price)`
(lines 86-133), for a caller-supplied price.  (When `price is None` the
code first asks the price service for a live quote and fails early if
none is available; that external-fetch path adds no ledger logic and all
properties below concern explicit-price calls.)  The ticker is
uppercased; a BUY is rejected when `quantity * price > cash_balance`, a
SELL when the ticker is absent or holds fewer shares than requested, and
any other `trade_type` is rejected as invalid; each rejection returns the
account untouched.  A successful trade updates cash and the position map
and appends a `Trade` record. -/
def Account.execute_trade (a : Account) (ticker0 trade_type : String)
    (quantity : ℤ) (price : ℚ) : TradeResult × Account :=
  let ticker := pyUpper ticker0
  if trade_type = "BUY" then
    let total_cost : ℚ := quantity * price
    if total_cost > a.cash_balance then (.insufficientFunds, a)
    else
      let pos := (a.positions.lookup ticker).getD (Position.init ticker)
      (.ok,
        { a with
          cash_balance := a.cash_balance - total_cost
          positions := dictInsert a.positions ticker (pos.add_shares quantity price)
          trade_history := a.trade_history ++ [Trade.init ticker trade_type quantity price] })
  else if trade_type = "SELL" then
    match a.positions.lookup ticker with
    | none => (.insufficientShares, a)
    | some pos =>
      if pos.quantity < quantity then (.insufficientShares, a)
      else
        let total_value : ℚ := quantity * price
        let pos' := pos.remove_shares quantity
        (.ok,
          { a with
            cash_balance := a.cash_balance + total_value
            positions :=
              if pos'.quantity = 0 then dictErase a.positions ticker
              else dictInsert a.positions ticker pos'
            trade_history := a.trade_history ++ [Trade.init ticker trade_type quantity price] })
  else (.invalidTradeType, a)

/-- Quantity held for a ticker: `positions.get(ticker, Position(ticker)).quantity`
(line 114) — 0 when the ticker is absent. -/
def Account.held_quantity (a : Account) (ticker : String) : ℤ :=
  ((a.positions.lookup ticker).map Position.quantity).getD 0

/-- One `execute_trade` request, for iterating trade sequences. -/
structure TradeReq where
  ticker : String
  trade_type : String
  quantity : ℤ
  price : ℚ
  deriving DecidableEq, Repr

/-- Apply a sequence of `execute_trade` calls, keeping the evolving account. -/
def Account.run_trades (a : Account) (reqs : List TradeReq) : Account :=
  reqs.foldl (fun acc r => (acc.execute_trade r.ticker r.trade_type r.quantity r.price).2) a

/-! ## Batched quote fetch: src/realtime_prices.py -/

/-- `RealtimePriceService.get_multiple_prices(tickers)` (lines 51-58):
iterate the tickers, fetch each live price, and keep only the tickers
whose fetch succeeded — a per-ticker-isolated partial map.  `quote` is
the provider (`get_live_price`); only the `price` field of its payload
is modelled. -/
def get_multiple_prices (quote : String → Option ℚ) (tickers : List String) :
    List (String × ℚ) :=
  tickers.filterMap (fun t => (quote t).map (fun p => (t, p)))

/-- `PaperTradingAccount.get_portfolio_value` (src/paper_trading.py lines
135-151): with no positions, the cash balance; otherwise cash plus, for
each position whose ticker appears in the batched price map, its
`get_current_value` at the fetched price — positions with no quote are
skipped. -/
def Account.get_portfolio_value (a : Account) (quote : String → Option ℚ) : ℚ :=
  let tickers := a.positions.map Prod.fst
  if tickers.isEmpty then a.cash_balance
  else
    let prices := get_multiple_prices quote tickers
    let positions_value := a.positions.foldl
      (fun acc kv =>
        match prices.lookup kv.1 with
        | some price => acc + kv.2.get_current_value price
        | none => acc) 0
    a.cash_balance + positions_value

/-! ## Price alerts: src/price_alerts.py -/

/-- `PriceAlert` (lines 9-19); the `condition` description string and the
`created_at` / `triggered_at` timestamps carry no logic and are
omitted. -/
structure PriceAlert where
  ticker : String
  alert_type : String
  target_price : ℚ
  triggered : Bool
  deriving DecidableEq, Repr

/-- `PriceAlert.__init__(ticker, alert_type, target_price, condition)`:
uppercased ticker, initially untriggered.  `AlertManager.add_alert`
(lines 55-59) constructs exactly this alert and appends it. -/
def PriceAlert.init (ticker alert_type : String) (target_price : ℚ) : PriceAlert :=
  { ticker := pyUpper ticker, alert_type := alert_type
    target_price := target_price, triggered := false }

/-- `PriceAlert.check_trigger(current_price)` (lines 21-35): an already
triggered alert returns False unchanged; an `above` alert fires when
`current_price >= target_price`, a `below` alert when
`current_price <= target_price`; firing sets `triggered`.  Returns the
Python boolean result paired with the updated alert. -/
def PriceAlert.check_trigger (a : PriceAlert) (current_price : ℚ) : Bool × PriceAlert :=
  if a.triggered then (false, a)
  else if a.alert_type = "above" ∧ a.target_price ≤ current_price then
    (true, { a with triggered := true })
  else if a.alert_type = "below" ∧ current_price ≤ a.target_price then
    (true, { a with triggered := true })
  else (false, a)

/-- `AlertManager.check_all_alerts` (lines 66-87): fetch one batched
price map over the distinct tickers of the untriggered alerts, then run
`check_trigger` on every untriggered alert whose ticker got a price.
Returns the updated alert list (the Python code mutates the alerts in
place) together with the list of alerts that newly triggered during this
call. -/
def check_all_alerts (alerts : List PriceAlert) (quote : String → Option ℚ) :
    List PriceAlert × List PriceAlert :=
  let tickers := ((alerts.filter (fun a => !a.triggered)).map PriceAlert.ticker).dedup
  let prices := get_multiple_prices quote tickers
  let results := alerts.map (fun al =>
    if !al.triggered then
      match prices.lookup al.ticker with
      | some p => al.check_trigger p
      | none => (false, al)
    else (false, al))
  (results.map Prod.snd, (results.filter Prod.fst).map Prod.snd)

/-! ## RSI indicator: src/indicators.py

`calculate_rsi` runs on pandas float64 series and relies on IEEE-754
semantics at `rs = avg_gain / avg_loss` when `avg_loss` is 0 (giving
`inf`, and then `100 - 100/(1+inf) = 100`).  `FV` models the IEEE float
values reachable here: finite rationals, the two infinities and NaN.
Signed zeroes are collapsed to `fin 0`; the only place a zero produced by
an FV operation is consumed is `100 - (100/(1+rs))`, where the zero's
sign cannot be observed. -/

/-- An IEEE-754 double restricted to exact values: a finite rational,
+inf, -inf, or NaN. -/
inductive FV where
  | fin (q : ℚ)
  | pinf
  | ninf
  | nan
  deriving DecidableEq, Repr

/-- IEEE addition on `FV`. -/
def FV.add : FV → FV → FV
  | nan, _ => nan
  | _, nan => nan
  | pinf, ninf => nan
  | ninf, pinf => nan
  | pinf, _ => pinf
  | _, pinf => pinf
  | ninf, _ => ninf
  | _, ninf => ninf
  | fin a, fin b => fin (a + b)

/-- IEEE negation on `FV`. -/
def FV.neg : FV → FV
  | fin q => fin (-q)
  | pinf => ninf
  | ninf => pinf
  | nan => nan

/-- IEEE subtraction on `FV` (addition of the negation). -/
def FV.sub (a b : FV) : FV := a.add b.neg

/-- IEEE division on `FV`: `x/0` is a signed infinity for finite
nonzero `x`, `0/0` is NaN, `inf/inf` is NaN, `x/inf` is (a signed) zero. -/
def FV.div : FV → FV → FV
  | nan, _ => nan
  | _, nan => nan
  | pinf, pinf => nan
  | pinf, ninf => nan
  | ninf, pinf => nan
  | ninf, ninf => nan
  | pinf, fin b => if b < 0 then ninf else pinf
  | ninf, fin b => if b < 0 then pinf else ninf
  | fin _, pinf => fin 0
  | fin _, ninf => fin 0
  | fin a, fin b =>
      if b = 0 then (if a = 0 then nan else if 0 < a then pinf else ninf)
      else fin (a / b)

/-- One RSI value from a smoothed gain/loss pair:
`rs = avg_gain / avg_loss; rsi = 100 - (100 / (1 + rs))`
(src/indicators.py lines 10-11), under IEEE arithmetic. -/
def rsiOfAvgs (g l : ℚ) : FV :=
  FV.sub (.fin 100) (FV.div (.fin 100) (FV.add (.fin 1) (FV.div (.fin g) (.fin l))))

/-- Recursive `ewm(alpha, adjust=False).mean()` accumulation:
`y_t = y_cur + alpha * (x_t - y_cur)`, emitting the current average
before each step. -/
def ewmGo (alpha acc : ℚ) : List ℚ → List ℚ
  | [] => [acc]
  | x :: xs => acc :: ewmGo alpha (acc + alpha * (x - acc)) xs

/-- `series.ewm(alpha=alpha, adjust=False).mean()`: the first element
seeds the average, each later element updates it recursively. -/
def ewmMean (alpha : ℚ) : List ℚ → List ℚ
  | [] => []
  | x :: xs => ewmGo alpha x xs

/-- `prices.diff()` without its leading NaN: the list of consecutive
differences, index `i` holding `prices[i+1] - prices[i]`.  All derived
series below are indexed the same way (source index 1 onward); the
source's index-0 entries are the`diff()` NaN propagated through, i.e.
undefined, and are not represented. -/
def deltas (prices : List ℚ) : List ℚ :=
  List.zipWith (fun a b => a - b) prices.tail prices

/-- `gain = delta.clip(lower=0)` (line 6). -/
def gainsOf (prices : List ℚ) : List ℚ := (deltas prices).map (fun d => max d 0)

/-- `loss = -delta.clip(upper=0)` (line 7). -/
def lossesOf (prices : List ℚ) : List ℚ := (deltas prices).map (fun d => max (-d) 0)

/-- `avg_gain = gain.ewm(alpha=1/period, adjust=False).mean()` (line 8). -/
def avg_gain (prices : List ℚ) (period : ℕ) : List ℚ :=
  ewmMean (1 / period) (gainsOf prices)

/-- `avg_loss = loss.ewm(alpha=1/period, adjust=False).mean()` (line 9). -/
def avg_loss (prices : List ℚ) (period : ℕ) : List ℚ :=
  ewmMean (1 / period) (lossesOf prices)

/-- `calculate_rsi(prices, period)` (src/indicators.py lines 3-12),
value at source index `i+1` stored at list index `i`. -/
def calculate_rsi (prices : List ℚ) (period : ℕ) : List FV :=
  List.zipWith rsiOfAvgs (avg_gain prices period) (avg_loss prices period)

/-! ## OHLCV resampler: src/data_fetcher.py -/

/-- One OHLCV row.  `date` is the row's timestamp in whole days since
1970-01-01 (a trading-daily DatetimeIndex). -/
structure Bar where
  date : ℤ
  Open : ℚ
  High : ℚ
  Low : ℚ
  Close : ℚ
  Volume : ℚ
  deriving DecidableEq, Repr

/-- The `W-FRI` bin label of a day: the Friday on or after it (pandas
`W-FRI` bins run Saturday through Friday).  Day 0 (1970-01-01) is a
Thursday, so day `d` is a Friday exactly when `(1 - d) % 7 = 0`. -/
def weekKeyFri (d : ℤ) : ℤ := d + (1 - d).emod 7

/-- Civil calendar from days since 1970-01-01 (standard era-based
algorithm), returning (year, month). -/
def civilFromDays (z0 : ℤ) : ℤ × ℤ :=
  let z := z0 + 719468
  let era := z.fdiv 146097
  let doe := z - era * 146097
  let yoe := (doe - doe.ediv 1460 + doe.ediv 36524 - doe.ediv 146096).ediv 365
  let y := yoe + era * 400
  let doy := doe - (365 * yoe + yoe.ediv 4 - yoe.ediv 100)
  let mp := (5 * doy + 2).ediv 153
  let m := if mp < 10 then mp + 3 else mp - 9
  (if m ≤ 2 then y + 1 else y, m)

/-- The `M` (calendar month) bin label of a day. -/
def monthKey (d : ℤ) : ℤ :=
  let ym := civilFromDays d
  ym.1 * 12 + ym.2

/-- The `3M` (three-calendar-month) bin label of a day. -/
def quarterKey (d : ℤ) : ℤ :=
  let ym := civilFromDays d
  ym.1 * 4 + (ym.2 - 1).ediv 3

/-- Aggregate one non-empty bin of bars per the `agg_dict` of
`resample_data_to_timeframe` (lines 41-47): first Open, max High, min
Low, last Close, summed Volume; the bin is labelled by its key. -/
def aggChunk (key : ℤ → ℤ) : List Bar → Option Bar
  | [] => none
  | b :: bs => some
      { date := key b.date
        Open := b.Open
        High := bs.foldl (fun acc x => max acc x.High) b.High
        Low := bs.foldl (fun acc x => min acc x.Low) b.Low
        Close := bs.foldl (fun _ x => x.Close) b.Close
        Volume := bs.foldl (fun acc x => acc + x.Volume) b.Volume }

/-- Group a (chronologically ordered) bar list into maximal runs of bars
sharing a bin key — the non-empty resampling bins. -/
def groupRuns (key : ℤ → ℤ) : List Bar → List (List Bar)
  | [] => []
  | b :: bs =>
    match groupRuns key bs with
    | [] => [[b]]
    | [] :: rest => [b] :: rest
    | (c :: cs) :: rest =>
      if key b.date = key c.date then (b :: c :: cs) :: rest
      else [b] :: (c :: cs) :: rest

/-- `data.resample(freq).agg(agg_dict)` followed by `.dropna()`: group
the bars into runs sharing a bin key and aggregate each run.  Empty
bins, which pandas materialises as NaN rows, are exactly the rows
`dropna()` removes, so they never appear. -/
def resampleBy (key : ℤ → ℤ) (data : List Bar) : List Bar :=
  (groupRuns key data).filterMap (aggChunk key)

/-- `resample_data_to_timeframe(data, timeframe)` (lines 26-70).  `'1D'`
returns the input as is; `'1W'`/`'1M'`/`'3M'` resample via the
`freq_map` rules; any other timeframe hits the
`st.warning(f"Unsupported timeframe: ...")` branch and returns the input
data unchanged.  The boolean records whether that warning was emitted
(the function's only other effect).  The `try/except` around the pandas
call has no counterpart: the modelled aggregation is total. -/
def resample_data_to_timeframe (data : List Bar) (timeframe : String) :
    List Bar × Bool :=
  if timeframe = "1D" then (data, false)
  else if timeframe = "1W" then (resampleBy weekKeyFri data, false)
  else if timeframe = "1M" then (resampleBy monthKey data, false)
  else if timeframe = "3M" then (resampleBy quarterKey data, false)
  else (data, true)

/-! ## Helper lemmas -/

/-- A single `execute_trade` call with non-negative quantity and price
keeps a non-negative cash balance non-negative. -/
theorem cash_nonneg_step (a : Account) (t ty : String) (q : ℤ) (p : ℚ)
    (ha : 0 ≤ a.cash_balance) (hq : 0 ≤ q) (hp : 0 ≤ p) :
    0 ≤ (a.execute_trade t ty q p).2.cash_balance := by
  unfold Account.execute_trade
  by_cases hb : ty = "BUY"
  · by_cases hc : (q : ℚ) * p > a.cash_balance
    · simp [hb, hc, ha]
    · simp only [hb, if_pos rfl, if_neg hc]
      simpa using sub_nonneg.mpr (le_of_not_lt hc)
  · by_cases hs : ty = "SELL"
    · simp only [hb, hs, if_neg, if_false, if_pos rfl]
      cases hl : a.positions.lookup (pyUpper t) with
      | none => simpa [hl] using ha
      | some pos =>
        by_cases hlt : pos.quantity < q
        · simp [hl, hlt, ha]
        · have hqp : (0 : ℚ) ≤ (q : ℚ) * p :=
            mul_nonneg (by exact_mod_cast hq) hp
          simp only [hl, if_neg hlt]
          exact add_nonneg ha hqp
    · simp [hb, hs, ha]

/-- Running a list of non-negative-quantity, non-negative-price trade
requests keeps a non-negative cash balance non-negative. -/
theorem run_trades_cash_nonneg (reqs : List TradeReq) :
    ∀ a : Account, 0 ≤ a.cash_balance →
      (∀ r ∈ reqs, 0 ≤ r.quantity ∧ 0 ≤ r.price) →
      0 ≤ (a.run_trades reqs).cash_balance := by
  induction reqs with
  | nil => intro a ha _; simpa [Account.run_trades] using ha
  | cons r rest ih =>
    intro a ha hreqs
    have hr := hreqs r (List.mem_cons_self r rest)
    have hstep := cash_nonneg_step a r.ticker r.trade_type r.quantity r.price ha hr.1 hr.2
    have : (a.run_trades (r :: rest)) =
        ((a.execute_trade r.ticker r.trade_type r.quantity r.price).2).run_trades rest := by
      simp [Account.run_trades]
    rw [this]
    exact ih _ hstep (fun r' hr' => hreqs r' (List.mem_cons_of_mem r hr'))

/-- The key of `get_multiple_prices` output at a ticker is the provider's
quote when the ticker was requested, and absent otherwise. -/
theorem lookup_get_multiple_prices (quote : String → Option ℚ) (ts : List String)
    (t : String) :
    (get_multiple_prices quote ts).lookup t = if t ∈ ts then quote t else none := by
  induction ts with
  | nil => simp [get_multiple_prices]
  | cons s rest ih =>
    rw [show get_multiple_prices quote (s :: rest) =
      ((quote s).map (fun p => (s, p))).toList ++ get_multiple_prices quote rest by
        cases hq : quote s <;> simp [get_multiple_prices, List.filterMap_cons, hq]]
    cases hq : quote s with
    | none =>
      simp only [hq, Option.map_none', Option.toList_none, List.nil_append, ih]
      by_cases hts : t = s
      · subst hts
        by_cases hr : t ∈ rest <;> simp [hr, hq]
      · simp [List.mem_cons, hts]
    | some p =>
      by_cases hts : t = s
      · subst hts
        simp [hq, List.lookup]
      · have hbeq : (t == s) = false := beq_eq_false_iff_ne.mpr hts
        simp [hq, List.lookup, hbeq, ih, List.mem_cons, hts]

/-- The position-valuation fold of `get_portfolio_value` equals the sum
in which each position contributes `quantity * price` when its quote is
present and 0 when it is missing. -/
theorem foldl_portfolio_sum (quote : String → Option ℚ) (prices : List (String × ℚ))
    (l : List (String × Position)) (hl : ∀ kv ∈ l, prices.lookup kv.1 = quote kv.1) :
    ∀ c : ℚ,
      l.foldl (fun acc kv =>
        match prices.lookup kv.1 with
        | some price => acc + kv.2.get_current_value price
        | none => acc) c
      = c + (l.map (fun kv => kv.2.quantity * ((quote kv.1).getD 0))).sum := by
  induction l with
  | nil => simp
  | cons kv rest ih =>
    intro c
    have hk := hl kv (List.mem_cons_self kv rest)
    have ihr := ih (fun kv' h' => hl kv' (List.mem_cons_of_mem kv h'))
    cases hq : quote kv.1 with
    | none =>
      rw [hq] at hk
      simp only [List.foldl_cons, hk, List.map_cons, List.sum_cons]
      rw [ihr]
      simp [hq]
    | some p =>
      rw [hq] at hk
      simp only [List.foldl_cons, hk, List.map_cons, List.sum_cons]
      rw [ihr]
      simp [Position.get_current_value, hq]
      ring

/-- `Char.toNat` of `Char.ofNat n` recovers `n` for codepoints below the
surrogate range. -/
theorem charOfNat_toNat (n : ℕ) (h : n < 55296) : (Char.ofNat n).toNat = n := by
  have hv : n.isValidChar := Or.inl h
  simp [Char.ofNat, hv, Char.ofNatAux, Char.toNat, UInt32.toNat, BitVec.toNat_ofNatLt]

theorem pyUpperChar_idem (c : Char) : pyUpperChar (pyUpperChar c) = pyUpperChar c := by
  unfold pyUpperChar
  by_cases hc : 97 ≤ c.toNat ∧ c.toNat ≤ 122
  · rw [if_pos hc]
    have ht : (Char.ofNat (c.toNat - 32)).toNat = c.toNat - 32 :=
      charOfNat_toNat _ (by omega)
    rw [if_neg]
    rw [ht]
    omega
  · rw [if_neg hc, if_neg hc]

def isUpperName (s : String) : Prop := pyUpper s = s

theorem pyUpper_idem (s : String) : pyUpper (pyUpper s) = pyUpper s := by
  show String.mk ((s.data.map pyUpperChar).map pyUpperChar) = String.mk (s.data.map pyUpperChar)
  rw [List.map_map]
  exact congrArg String.mk (List.map_congr_left (fun c _ => pyUpperChar_idem c))

theorem isUpperName_pyUpper (s : String) : isUpperName (pyUpper s) := pyUpper_idem s

theorem dictInsert_keys_upper (m : List (String × Position)) (k : String) (v : Position)
    (hm : ∀ kv ∈ m, isUpperName kv.1) (hk : isUpperName k) :
    ∀ kv ∈ dictInsert m k v, isUpperName kv.1 := by
  intro kv hkv
  by_cases hs : (m.lookup k).isSome
  · rw [dictInsert, if_pos hs] at hkv
    obtain ⟨kv0, h0, heq⟩ := List.mem_map.mp hkv
    by_cases hkk : kv0.1 = k
    · rw [← heq, if_pos hkk]
      exact hk
    · rw [← heq, if_neg hkk]
      exact hm kv0 h0
  · rw [dictInsert, if_neg hs] at hkv
    rcases List.mem_append.mp hkv with hkv | hkv
    · exact hm kv hkv
    · rw [List.mem_singleton.mp hkv]
      exact hk

theorem dictErase_keys_upper (m : List (String × Position)) (k : String)
    (hm : ∀ kv ∈ m, isUpperName kv.1) :
    ∀ kv ∈ dictErase m k, isUpperName kv.1 := by
  intro kv hkv
  exact hm kv (List.mem_of_mem_filter hkv)

theorem execute_trade_positions_upper (a : Account) (t ty : String) (q : ℤ) (p : ℚ)
    (hm : ∀ kv ∈ a.positions, isUpperName kv.1) :
    ∀ kv ∈ (a.execute_trade t ty q p).2.positions, isUpperName kv.1 := by
  unfold Account.execute_trade
  by_cases hb : ty = "BUY"
  · by_cases hc : (q : ℚ) * p > a.cash_balance
    · simpa [hb, hc] using hm
    · simp only [hb, if_pos rfl, if_neg hc]
      exact dictInsert_keys_upper _ _ _ hm (isUpperName_pyUpper _)
  · by_cases hs : ty = "SELL"
    · simp only [hb, hs, if_neg, if_false, if_pos rfl]
      cases hl : a.positions.lookup (pyUpper t) with
      | none => simpa [hl] using hm
      | some pos =>
        by_cases hlt : pos.quantity < q
        · simpa [hl, hlt] using hm
        · simp only [hl, if_neg hlt]
          by_cases hz : (pos.remove_shares q).quantity = 0
          · simpa [hz] using dictErase_keys_upper _ _ hm
          · simpa [hz] using dictInsert_keys_upper _ _ _ hm (isUpperName_pyUpper _)
    · simpa [hb, hs] using hm

theorem execute_trade_history_upper (a : Account) (t ty : String) (q : ℤ) (p : ℚ)
    (hm : ∀ tr ∈ a.trade_history, isUpperName tr.ticker) :
    ∀ tr ∈ (a.execute_trade t ty q p).2.trade_history, isUpperName tr.ticker := by
  have happ : ∀ tr ∈ a.trade_history ++ [Trade.init (pyUpper t) ty q p],
      isUpperName tr.ticker := by
    intro tr htr
    rcases List.mem_append.mp htr with htr | htr
    · exact hm tr htr
    · rw [List.mem_singleton.mp htr]
      exact isUpperName_pyUpper _
  by_cases hb : ty = "BUY"
  · subst hb
    unfold Account.execute_trade
    rw [if_pos rfl]
    by_cases hc : (q : ℚ) * p > a.cash_balance
    · simpa [hc] using hm
    · simpa only [if_neg hc] using happ
  · by_cases hs : ty = "SELL"
    · subst hs
      unfold Account.execute_trade
      rw [if_neg (by decide : ¬("SELL" = "BUY")), if_pos rfl]
      cases hl : a.positions.lookup (pyUpper t) with
      | none => simpa [hl] using hm
      | some pos =>
        by_cases hlt : pos.quantity < q
        · simpa [hl, hlt] using hm
        · simpa only [hl, if_neg hlt] using happ
    · unfold Account.execute_trade
      rw [if_neg hb, if_neg hs]
      exact hm


theorem execute_sell_liquidating (a : Account) (t : String) (q : ℤ) (p : ℚ) (pos : Position)
    (hl : a.positions.lookup (pyUpper t) = some pos) (hq : ¬ pos.quantity < q)
    (hz : (pos.remove_shares q).quantity = 0) :
    (a.execute_trade t "SELL" q p).2.positions = dictErase a.positions (pyUpper t) := by
  unfold Account.execute_trade
  rw [if_neg (by decide : ¬("SELL" = "BUY")), if_pos rfl, hl]
  simp [hq, hz]

theorem buy_then_sell_liquidates (t1 t2 : String) (q : ℤ) (p1 p2 b : ℚ)
    (hup : pyUpper t1 = pyUpper t2) (hb : (q : ℚ) * p1 ≤ b) :
    (((Account.init b).execute_trade t1 "BUY" q p1).2.execute_trade
      t2 "SELL" q p2).2.positions = [] := by
  have hc : ¬((q : ℚ) * p1 > (Account.init b).cash_balance) := by
    simp only [Account.init, not_lt]
    exact hb
  have h1 : ((Account.init b).execute_trade t1 "BUY" q p1).2.positions =
      [(pyUpper t1, (Position.init (pyUpper t1)).add_shares q p1)] := by
    simp [Account.execute_trade, Account.init, hc, if_neg (not_lt.mpr hb), dictInsert]
  have hqty : ((Position.init (pyUpper t1)).add_shares q p1).quantity = q := by
    simp [Position.add_shares, Position.init]
  rw [execute_sell_liquidating _ t2 q p2 ((Position.init (pyUpper t1)).add_shares q p1)
      (by rw [h1, ← hup]; simp [List.lookup])
      (by rw [hqty]; exact lt_irrefl q)
      (by simp [Position.remove_shares, hqty]),
    h1, ← hup]
  simp [dictErase]

theorem FV.add_fin_fin (a b : ℚ) : FV.add (.fin a) (.fin b) = .fin (a + b) := rfl

theorem FV.add_fin_pinf (a : ℚ) : FV.add (.fin a) .pinf = .pinf := rfl

theorem FV.add_fin_nan (a : ℚ) : FV.add (.fin a) .nan = .nan := rfl

theorem FV.div_fin_fin (a b : ℚ) :
    FV.div (.fin a) (.fin b) =
      if b = 0 then (if a = 0 then .nan else if 0 < a then .pinf else .ninf)
      else .fin (a / b) := rfl

theorem FV.div_fin_pinf (a : ℚ) : FV.div (.fin a) .pinf = .fin 0 := rfl

theorem FV.div_fin_nan (a : ℚ) : FV.div (.fin a) .nan = .nan := rfl

theorem FV.sub_fin_fin (a b : ℚ) : FV.sub (.fin a) (.fin b) = .fin (a - b) := by
  show FV.fin (a + -b) = FV.fin (a - b)
  rw [← sub_eq_add_neg]

theorem FV.sub_fin_nan (a : ℚ) : FV.sub (.fin a) .nan = .nan := rfl

/-- The IEEE evaluation of `100 - (100 / (1 + g / l))` for non-negative
finite smoothed averages: NaN when both are 0, exactly 100 when only the
loss is 0, and the finite textbook value otherwise. -/
theorem rsiOfAvgs_eq (g l : ℚ) (hg : 0 ≤ g) (hl : 0 ≤ l) :
    rsiOfAvgs g l =
      if l = 0 then (if g = 0 then FV.nan else FV.fin 100)
      else FV.fin (100 - 100 / (1 + g / l)) := by
  by_cases hl0 : l = 0
  · subst hl0
    by_cases hg0 : g = 0
    · subst hg0
      simp [rsiOfAvgs, FV.div_fin_fin, FV.add_fin_nan, FV.div_fin_nan, FV.sub_fin_nan]
    · have hgpos : 0 < g := lt_of_le_of_ne hg (Ne.symm hg0)
      simp [rsiOfAvgs, FV.div_fin_fin, hg0, hgpos, FV.add_fin_pinf, FV.div_fin_pinf,
        FV.sub_fin_fin]
  · have hlpos : 0 < l := lt_of_le_of_ne hl (Ne.symm hl0)
    have hr : 0 ≤ g / l := div_nonneg hg hlpos.le
    have hne : ¬(1 + g / l = 0) := by positivity
    simp only [rsiOfAvgs, FV.div_fin_fin, if_neg hl0, FV.add_fin_fin, if_neg hne]
    rw [FV.sub_fin_fin]

/-- One RSI value from non-negative smoothed averages is either NaN or a
finite rational in [0, 100]. -/
theorem rsiOfAvgs_sound (g l : ℚ) (hg : 0 ≤ g) (hl : 0 ≤ l) :
    rsiOfAvgs g l = FV.nan ∨
      ∃ q, rsiOfAvgs g l = FV.fin q ∧ 0 ≤ q ∧ q ≤ 100 := by
  rw [rsiOfAvgs_eq g l hg hl]
  by_cases hl0 : l = 0
  · by_cases hg0 : g = 0
    · simp [hl0, hg0]
    · right
      refine ⟨100, by simp [hl0, hg0], by norm_num⟩
  · right
    have hlpos : 0 < l := lt_of_le_of_ne hl (Ne.symm hl0)
    have hr : 0 ≤ g / l := div_nonneg hg hlpos.le
    have hpos : (0 : ℚ) < 1 + g / l := by linarith
    have hle : 100 / (1 + g / l) ≤ 100 := by
      rw [div_le_iff₀ hpos]
      nlinarith
    have hlt : 0 < 100 / (1 + g / l) := by positivity
    exact ⟨100 - 100 / (1 + g / l), by simp [hl0], by linarith, by linarith⟩

/-- The recursive exponential average of non-negative inputs, seeded
non-negatively with a smoothing factor in [0, 1], stays non-negative. -/
theorem ewmGo_nonneg (alpha : ℚ) (h0 : 0 ≤ alpha) (h1 : alpha ≤ 1) :
    ∀ (xs : List ℚ) (acc : ℚ), 0 ≤ acc → (∀ x ∈ xs, 0 ≤ x) →
      ∀ y ∈ ewmGo alpha acc xs, 0 ≤ y := by
  intro xs
  induction xs with
  | nil =>
    intro acc hacc _ y hy
    simp [ewmGo] at hy
    exact hy ▸ hacc
  | cons x rest ih =>
    intro acc hacc hxs y hy
    simp only [ewmGo, List.mem_cons] at hy
    rcases hy with hy | hy
    · exact hy ▸ hacc
    · have hx : 0 ≤ x := hxs x (List.mem_cons_self x rest)
      have hacc' : 0 ≤ acc + alpha * (x - acc) := by nlinarith
      exact ih (acc + alpha * (x - acc)) hacc'
        (fun z hz => hxs z (List.mem_cons_of_mem x hz)) y hy

/-- `ewm(alpha, adjust=False).mean()` of a non-negative series is
non-negative throughout, for a smoothing factor in [0, 1]. -/
theorem ewmMean_nonneg (alpha : ℚ) (h0 : 0 ≤ alpha) (h1 : alpha ≤ 1)
    (xs : List ℚ) (hxs : ∀ x ∈ xs, 0 ≤ x) :
    ∀ y ∈ ewmMean alpha xs, 0 ≤ y := by
  cases xs with
  | nil => simp [ewmMean]
  | cons x rest =>
    exact ewmGo_nonneg alpha h0 h1 rest x (hxs x (List.mem_cons_self x rest))
      (fun z hz => hxs z (List.mem_cons_of_mem x hz))

/-- Every value zipped out of non-negative gain/loss averages is NaN or
a finite rational in [0, 100]. -/
theorem zipWith_rsi_sound :
    ∀ (gs ls : List ℚ), (∀ g ∈ gs, 0 ≤ g) → (∀ l ∈ ls, 0 ≤ l) →
      ∀ v ∈ List.zipWith rsiOfAvgs gs ls,
        v = FV.nan ∨ ∃ q, v = FV.fin q ∧ 0 ≤ q ∧ q ≤ 100 := by
  intro gs
  induction gs with
  | nil => simp
  | cons g gs ih =>
    intro ls hgs hls v hv
    cases ls with
    | nil => simp at hv
    | cons l ls =>
      simp only [List.zipWith_cons_cons, List.mem_cons] at hv
      rcases hv with hv | hv
      · subst hv
        exact rsiOfAvgs_sound g l (hgs g (List.mem_cons_self g gs))
          (hls l (List.mem_cons_self l ls))
      · exact ih ls (fun x hx => hgs x (List.mem_cons_of_mem g hx))
          (fun x hx => hls x (List.mem_cons_of_mem l hx)) v hv

/-- Indexing a `zipWith` of the RSI formula at a position both input
lists populate. -/
theorem zipWith_getElem?_rsi :
    ∀ (gs ls : List ℚ) (i : ℕ) (g l : ℚ), gs[i]? = some g → ls[i]? = some l →
      (List.zipWith rsiOfAvgs gs ls)[i]? = some (rsiOfAvgs g l) := by
  intro gs
  induction gs with
  | nil => intro ls i g l hg; simp at hg
  | cons x xs ih =>
    intro ls i g l hg hl
    cases ls with
    | nil => simp at hl
    | cons y ys =>
      cases i with
      | zero =>
        simp only [List.getElem?_cons_zero, Option.some.injEq] at hg hl
        simp [hg, hl]
      | succ n =>
        simp only [List.getElem?_cons_succ] at hg hl
        simpa using ih ys n g l hg hl

/-- A fired `check_trigger` implies the alert was untriggered at entry
and the result is that alert with its `triggered` flag set. -/
theorem check_trigger_fired (c : PriceAlert) (p : ℚ) (h : (c.check_trigger p).1 = true) :
    c.triggered = false ∧ (c.check_trigger p).2 = { c with triggered := true } := by
  unfold PriceAlert.check_trigger at h ⊢
  by_cases ht : c.triggered
  · simp [ht] at h
  · refine ⟨by simpa using ht, ?_⟩
    by_cases h1 : c.alert_type = "above" ∧ c.target_price ≤ p
    · simp [ht, h1]
    · by_cases h2 : c.alert_type = "below" ∧ p ≤ c.target_price
      · simp [ht, h1, h2]
      · simp [ht, h1, h2] at h

/-- Daily bars for the trading week Monday 1970-01-05 (day 4) through
Friday 1970-01-09 (day 8), carrying the OHLCV values of the C7 claim. -/
def weekBars : List Bar :=
  [{ date := 4, Open := 10, High := 12, Low := 9, Close := 11, Volume := 100 },
   { date := 5, Open := 11, High := 13, Low := 10, Close := 12, Volume := 200 },
   { date := 6, Open := 12, High := 14, Low := 11, Close := 11, Volume := 150 },
   { date := 7, Open := 11, High := 13, Low := 10, Close := 13, Volume := 175 },
   { date := 8, Open := 13, High := 15, Low := 12, Close := 14, Volume := 125 }]

/-- An account holding 5 shares of XYZ next to 100 in cash. -/
def acctHoldingXYZ : Account :=
  { initial_balance := 100, cash_balance := 100
    positions := [("XYZ", { ticker := "XYZ", quantity := 5, avg_price := 10, total_cost := 50 })]
    trade_history := [] }

/-! ## Claims -/

/-- C1 scenario, first step: BUY 10 shares of X at 50 on a fresh
100000-cash ledger. -/
def c1Step1 : TradeResult × Account := (Account.init 100000).execute_trade "X" "BUY" 10 50

/-- C1 scenario, second step: BUY 10 more shares of X at 70. -/
def c1Step2 : TradeResult × Account := c1Step1.2.execute_trade "X" "BUY" 10 70

/-- C1 scenario, third step: SELL 5 shares of X at 80. -/
def c1Step3 : TradeResult × Account := c1Step2.2.execute_trade "X" "SELL" 5 80

/-- Claim C1: from a fresh ledger with cash 100000, BUY 10 @ 50 leaves
cash 99500 and position (quantity 10, avgPrice 50, totalCost 500); a
second BUY 10 @ 70 leaves (quantity 20, avgPrice 60, totalCost 1200);
SELL 5 @ 80 adds 400 to cash and leaves (quantity 15, avgPrice 60,
totalCost 900). -/
theorem claim_c1_ledger_scenario :
    c1Step1.1 = .ok ∧ c1Step1.2.cash_balance = 99500 ∧
      c1Step1.2.positions.lookup "X" =
        some { ticker := "X", quantity := 10, avg_price := 50, total_cost := 500 } ∧
    c1Step2.1 = .ok ∧
      c1Step2.2.positions.lookup "X" =
        some { ticker := "X", quantity := 20, avg_price := 60, total_cost := 1200 } ∧
    c1Step3.1 = .ok ∧ c1Step3.2.cash_balance = c1Step2.2.cash_balance + 400 ∧
      c1Step3.2.positions.lookup "X" =
        some { ticker := "X", quantity := 15, avg_price := 60, total_cost := 900 } := by
  norm_num [c1Step1, c1Step2, c1Step3, Account.execute_trade, Account.init, Position.init,
    Position.add_shares, Position.remove_shares, Trade.init, dictInsert, dictErase,
    pyUpper, pyUpperChar, List.lookup]
  all_goals decide

/-- Claim C2: a BUY whose required cash `quantity * price` exceeds the
cash balance returns InsufficientFunds, and a SELL whose quantity
exceeds the held quantity of the (uppercased) ticker returns
InsufficientShares; in both cases the returned account is exactly the
input account — cash, positions and trade history untouched, no Trade
appended. -/
theorem claim_c2_rejections_atomic (a : Account) (t : String) (q : ℤ) (p : ℚ) :
    ((q : ℚ) * p > a.cash_balance →
      a.execute_trade t "BUY" q p = (.insufficientFunds, a)) ∧
    (a.held_quantity (pyUpper t) < q →
      a.execute_trade t "SELL" q p = (.insufficientShares, a)) := by
  constructor
  · intro h
    simp [Account.execute_trade, h]
  · intro h
    unfold Account.execute_trade
    cases hl : a.positions.lookup (pyUpper t) with
    | none => simp [hl]
    | some pos =>
      have : pos.quantity < q := by
        simpa [Account.held_quantity, hl] using h
      simp [hl, this]

/-- Witness for C2 at a concrete input: a fresh account with cash 100
rejects BUY 10 @ 20 (needs 200) and rejects SELL 5 of an unheld ticker. -/
theorem claim_c2_rejections_atomic_witness :
    (Account.init 100).execute_trade "X" "BUY" 10 20 =
      (.insufficientFunds, Account.init 100) ∧
    (Account.init 100).execute_trade "X" "SELL" 5 20 =
      (.insufficientShares, Account.init 100) :=
  ⟨(claim_c2_rejections_atomic (Account.init 100) "X" 10 20).1 (by norm_num [Account.init]),
   (claim_c2_rejections_atomic (Account.init 100) "X" 5 20).2 (by decide)⟩

/-- Claim C3 counterexample: the claim "cashBalance stays ≥ 0 after every
executeTrade" is false for arbitrary call sequences.  From a fresh
account with cash 100: BUY 10 @ 10 leaves cash 0 and 10 held shares;
then SELL with quantity -5 @ 10 passes the `quantity < held` check
(10 < -5 is false), credits `-5 * 10 = -50`, and leaves the cash balance
negative. -/
theorem claim_c3_counterexample :
    (((Account.init 100).execute_trade "A" "BUY" 10 10).2.execute_trade
      "A" "SELL" (-5) 10).2.cash_balance < 0 := by
  norm_num [show pyUpper "A" = "A" from by decide, Account.execute_trade, Account.init,
    Position.init, Position.add_shares, Position.remove_shares, Trade.init, dictInsert,
    dictErase, List.lookup]
  rw [if_neg (by decide : ¬("SELL" = "BUY"))]
  norm_num

/-- Claim C3 (amended): for every sequence of executeTrade operations
whose quantities and prices are all non-negative, applied to a ledger
created with a non-negative initial balance, cashBalance remains ≥ 0
after every operation (i.e. after every prefix of the sequence). -/
theorem claim_c3_cash_nonneg (b : ℚ) (hb : 0 ≤ b) (reqs : List TradeReq)
    (hreqs : ∀ r ∈ reqs, 0 ≤ r.quantity ∧ 0 ≤ r.price) (n : ℕ) :
    0 ≤ ((Account.init b).run_trades (reqs.take n)).cash_balance :=
  run_trades_cash_nonneg (reqs.take n) (Account.init b) hb
    (fun r hr => hreqs r (List.take_subset n reqs hr))

/-- Witness for C3 (amended) at a concrete input: one valid BUY from a
100-cash account keeps cash non-negative. -/
theorem claim_c3_cash_nonneg_witness :
    0 ≤ ((Account.init 100).run_trades
      (([⟨"A", "BUY", 1, 5⟩] : List TradeReq).take 1)).cash_balance :=
  claim_c3_cash_nonneg 100 (by norm_num) [⟨"A", "BUY", 1, 5⟩] (by decide) 1

/-- Claim C8 is contradicted by the code: `execute_trade` performs no
quantity validation.  A BUY with quantity 0 on a fresh account succeeds
(returns ok), appends a Trade record, and creates a zero-quantity
position; a BUY with quantity -10 @ 50 even credits 500 to the cash
balance.  (The Streamlit form guards quantity with `min_value=1`, but
the ledger operation itself does not reject non-positive quantities.) -/
theorem claim_c8_no_quantity_validation :
    ((Account.init 100000).execute_trade "AAPL" "BUY" 0 50).1 = .ok ∧
    ((Account.init 100000).execute_trade "AAPL" "BUY" 0 50).2.trade_history.length = 1 ∧
    ((Account.init 100000).execute_trade "AAPL" "BUY" 0 50).2.positions.lookup "AAPL" =
      some { ticker := "AAPL", quantity := 0, avg_price := 0, total_cost := 0 } ∧
    ((Account.init 100000).execute_trade "AAPL" "BUY" (-10) 50).2.cash_balance = 100500 := by
  norm_num [Account.execute_trade, Account.init, Position.init, Position.add_shares,
    Trade.init, dictInsert, pyUpper, pyUpperChar, List.lookup]
  all_goals decide

/-- Claim C6 counterexample: the claim "an unsupported granularity is
surfaced to the caller as an input error; resample never returns the
input series unchanged as if it were a valid result" is false.  `"2W"`
is outside the supported set `{1D, 1W, 1M, 3M}`, yet
`resample_data_to_timeframe` returns the input bars unchanged as its
result (after showing a `st.warning`, which does not reach the caller —
the caller receives the passthrough data as the return value). -/
theorem claim_c6_counterexample :
    ("2W" ∉ (["1D", "1W", "1M", "3M"] : List String)) ∧
    (resample_data_to_timeframe weekBars "2W").1 = weekBars := by
  constructor
  · decide
  · simp [resample_data_to_timeframe]

/-- Claim C6 (amended): for every input series, calling resample with a
granularity outside the supported set {1D, 1W, 1M, 3M} emits a warning
and returns the input series unchanged to the caller — a warned
passthrough, not a surfaced input error. -/
theorem claim_c6_unsupported_passthrough (data : List Bar) (tf : String)
    (h : tf ∉ (["1D", "1W", "1M", "3M"] : List String)) :
    resample_data_to_timeframe data tf = (data, true) := by
  have h1 : ¬ tf = "1D" := fun e => h (by simp [e])
  have h2 : ¬ tf = "1W" := fun e => h (by simp [e])
  have h3 : ¬ tf = "1M" := fun e => h (by simp [e])
  have h4 : ¬ tf = "3M" := fun e => h (by simp [e])
  simp [resample_data_to_timeframe, h1, h2, h3, h4]

/-- Witness for C6 (amended) at a concrete input: resampling the weekly
bar fixture at the unsupported granularity `"5D"` warns and passes the
input through. -/
theorem claim_c6_unsupported_passthrough_witness :
    resample_data_to_timeframe weekBars "5D" = (weekBars, true) :=
  claim_c6_unsupported_passthrough weekBars "5D" (by decide)

/-- Claim C7: resampling one full Monday-to-Friday trading week of daily
bars with opens [10,11,12,11,13], highs [12,13,14,13,15], lows
[9,10,11,10,12], closes [11,12,11,13,14], volumes [100,200,150,175,125]
to weekly granularity yields the single bar
{open 10, high 15, low 9, close 14, volume 750} — first open, max high,
min low, last close, summed volume — labelled by the Friday ending the
week. -/
theorem claim_c7_weekly_aggregation :
    resample_data_to_timeframe weekBars "1W" =
      ([{ date := 8, Open := 10, High := 15, Low := 9, Close := 14, Volume := 750 }], false) := by
  have h0 : resample_data_to_timeframe weekBars "1W" = (resampleBy weekKeyFri weekBars, false) := by
    simp [resample_data_to_timeframe]
  rw [h0]
  norm_num [resampleBy, weekBars, weekKeyFri, aggChunk, groupRuns, List.filterMap_cons,
    max_def, min_def]

/-- Claim C9 counterexample: the claim's final conjunct — "a ticker
whose quote is missing … is flagged to the caller rather than silently
dropped" — is false.  `get_portfolio_value` returns a bare number with
no flag: when every quote is unavailable, an account holding 5 XYZ
shares values to exactly the same 100 as a fresh account holding
nothing, so the caller cannot tell a quote was dropped. -/
theorem claim_c9_counterexample :
    acctHoldingXYZ.get_portfolio_value (fun _ => none) = 100 ∧
    (Account.init 100).get_portfolio_value (fun _ => none) = 100 := by
  constructor
  · norm_num [acctHoldingXYZ, Account.get_portfolio_value, get_multiple_prices, List.lookup]
  · norm_num [Account.get_portfolio_value, Account.init]

/-- Claim C9 (amended): for every ledger state and every partial quote
map, portfolioValue returns cashBalance plus the sum over held positions
of quantity × currentPrice for each ticker present in the quote map; a
ticker whose quote is missing never aborts valuation of the others and
contributes 0 to the total, but it is silently skipped, not flagged. -/
theorem claim_c9_portfolio_value (a : Account) (quote : String → Option ℚ) :
    a.get_portfolio_value quote =
      a.cash_balance + (a.positions.map (fun kv => kv.2.quantity * ((quote kv.1).getD 0))).sum := by
  unfold Account.get_portfolio_value
  by_cases hemp : a.positions = []
  · simp [hemp]
  · have hne : ¬(a.positions.map Prod.fst).isEmpty := by
      simp [List.isEmpty_iff, hemp]
    simp only [hne, if_false, Bool.false_eq_true, if_neg]
    rw [foldl_portfolio_sum quote _ a.positions
      (fun kv hkv => by
        rw [lookup_get_multiple_prices]
        exact if_pos (List.mem_map_of_mem Prod.fst hkv))]
    simp

/-- Claim C5: an untriggered ABOVE alert fires under `check_trigger`
exactly when the observed price is ≥ the target (inclusive), an
untriggered BELOW alert exactly when the price is ≤ the target; an
already-triggered alert is returned unchanged with a false result; in
`check_all_alerts` an already-triggered alert passes through unchanged
at its position (it is excluded from evaluation, so its flag never
reverts), and every alert in the returned newly-triggered list comes
from an alert that was untriggered at entry — a triggered alert is never
included again. -/
theorem claim_c5_alert_trigger_semantics (al : PriceAlert) (p : ℚ)
    (alerts : List PriceAlert) (quote : String → Option ℚ) :
    (al.triggered = false → al.alert_type = "above" →
      (((al.check_trigger p).1 = true) ↔ al.target_price ≤ p)) ∧
    (al.triggered = false → al.alert_type = "below" →
      (((al.check_trigger p).1 = true) ↔ p ≤ al.target_price)) ∧
    (al.triggered = true → al.check_trigger p = (false, al)) ∧
    (∀ (i : ℕ) (a : PriceAlert), alerts[i]? = some a → a.triggered = true →
      (check_all_alerts alerts quote).1[i]? = some a) ∧
    (∀ b ∈ (check_all_alerts alerts quote).2,
      ∃ c ∈ alerts, c.triggered = false ∧ b = { c with triggered := true }) := by
  refine ⟨?_, ?_, ?_, ?_, ?_⟩
  · intro ht ha
    by_cases hp : al.target_price ≤ p <;>
      simp [PriceAlert.check_trigger, ht, ha, hp]
  · intro ht ha
    by_cases hp : p ≤ al.target_price <;>
      simp [PriceAlert.check_trigger, ht, ha, hp]
  · intro ht
    simp [PriceAlert.check_trigger, ht]
  · intro i a hga hta
    unfold check_all_alerts
    simp only [List.map_map, List.getElem?_map, hga, Option.map_some']
    simp [hta]
  · intro b hb
    unfold check_all_alerts at hb
    simp only [List.mem_map, List.mem_filter] at hb
    obtain ⟨r, ⟨⟨c, hcmem, hstep⟩, hrfst⟩, hrsnd⟩ := hb
    refine ⟨c, hcmem, ?_⟩
    by_cases ht : c.triggered
    · rw [← hstep] at hrfst
      simp [ht] at hrfst
    · cases hq : (get_multiple_prices quote
          (((alerts.filter (fun a => !a.triggered)).map PriceAlert.ticker).dedup)).lookup
          c.ticker with
      | none =>
        rw [← hstep] at hrfst
        simp [ht, hq] at hrfst
      | some pr =>
        rw [← hstep] at hrfst hrsnd
        simp only [ht, Bool.not_false, if_pos, hq] at hrfst hrsnd
        have hf := check_trigger_fired c pr hrfst
        exact ⟨hf.1, by rw [← hrsnd, hf.2]⟩

/-- Witness for C5 at a concrete input: a fresh ABOVE alert with target
100 fires at an observed price of exactly 100. -/
theorem claim_c5_alert_trigger_semantics_witness :
    ((PriceAlert.init "AAPL" "above" 100).check_trigger 100).1 = true :=
  ((claim_c5_alert_trigger_semantics (PriceAlert.init "AAPL" "above" 100) 100 []
      (fun _ => none)).1 rfl rfl).mpr (by norm_num [PriceAlert.init])

/-- Claim C4: for every price series and positive RSI period, every
defined (non-NaN) value of `calculate_rsi` is a finite rational in
[0, 100]; and at every index where the smoothed average loss is exactly
0 while the smoothed average gain is positive, the RSI value is exactly
100 — the IEEE division by a zero `avg_loss` produces +inf and
`100 - 100/(1 + inf)` collapses to the ceiling 100, not NaN. -/
theorem claim_c4_rsi_bounded (prices : List ℚ) (period : ℕ) (h : 0 < period) :
    (∀ v ∈ calculate_rsi prices period,
        v = FV.nan ∨ ∃ q, v = FV.fin q ∧ 0 ≤ q ∧ q ≤ 100) ∧
    (∀ (i : ℕ) (g : ℚ), (avg_loss prices period)[i]? = some 0 →
        (avg_gain prices period)[i]? = some g → 0 < g →
        (calculate_rsi prices period)[i]? = some (FV.fin 100)) := by
  have halpha0 : (0 : ℚ) ≤ 1 / period := by positivity
  have halpha1 : (1 : ℚ) / period ≤ 1 := by
    rw [div_le_one (by exact_mod_cast h)]
    exact_mod_cast h
  have hgains : ∀ x ∈ gainsOf prices, 0 ≤ x := by
    intro x hx
    simp only [gainsOf, List.mem_map] at hx
    obtain ⟨d, _, hd⟩ := hx
    simp [← hd, le_max_right]
  have hlosses : ∀ x ∈ lossesOf prices, 0 ≤ x := by
    intro x hx
    simp only [lossesOf, List.mem_map] at hx
    obtain ⟨d, _, hd⟩ := hx
    simp [← hd, le_max_right]
  have hag : ∀ y ∈ avg_gain prices period, 0 ≤ y :=
    ewmMean_nonneg _ halpha0 halpha1 _ hgains
  have hal : ∀ y ∈ avg_loss prices period, 0 ≤ y :=
    ewmMean_nonneg _ halpha0 halpha1 _ hlosses
  constructor
  · exact zipWith_rsi_sound _ _ hag hal
  · intro i g hli hgi hgpos
    rw [calculate_rsi, zipWith_getElem?_rsi _ _ i g 0 hgi hli,
      rsiOfAvgs_eq g 0 hgpos.le le_rfl]
    simp [ne_of_gt hgpos]

/-- Witness for C4 at a concrete input: for the rising series [1, 2]
with period 14, the smoothed loss is 0 and the smoothed gain is 1, and
the RSI value is exactly 100. -/
theorem claim_c4_rsi_bounded_witness :
    (calculate_rsi [1, 2] 14)[0]? = some (FV.fin 100) :=
  (claim_c4_rsi_bounded [1, 2] 14 (by norm_num)).2 0 1
    (by norm_num [avg_loss, lossesOf, deltas, ewmMean, ewmGo])
    (by norm_num [avg_gain, gainsOf, deltas, ewmMean, ewmGo])
    (by norm_num)

/-- Claim C10: every ticker stored by the core is uppercase —
`execute_trade` preserves "all position-map keys are uppercase" and "all
trade-history tickers are uppercase" (the empty initial maps satisfy
both vacuously), and an alert built by `add_alert` stores an uppercase
ticker; consequently two calls whose tickers differ only in letter case
address the same position: a BUY of `t1` followed by a SELL of the same
quantity of `t2` with `upper(t1) = upper(t2)` liquidates the position,
leaving the position map empty. -/
theorem claim_c10_tickers_uppercase (a : Account) (t ty tick aty : String)
    (q : ℤ) (p tp : ℚ) (t1 t2 : String) (q2 : ℤ) (p1 p2 b : ℚ) :
    ((∀ kv ∈ a.positions, isUpperName kv.1) →
        ∀ kv ∈ (a.execute_trade t ty q p).2.positions, isUpperName kv.1) ∧
    ((∀ tr ∈ a.trade_history, isUpperName tr.ticker) →
        ∀ tr ∈ (a.execute_trade t ty q p).2.trade_history, isUpperName tr.ticker) ∧
    isUpperName (PriceAlert.init tick aty tp).ticker ∧
    (pyUpper t1 = pyUpper t2 → 0 < q2 → (q2 : ℚ) * p1 ≤ b →
        (((Account.init b).execute_trade t1 "BUY" q2 p1).2.execute_trade
          t2 "SELL" q2 p2).2.positions = []) :=
  ⟨execute_trade_positions_upper a t ty q p,
   execute_trade_history_upper a t ty q p,
   isUpperName_pyUpper tick,
   fun hup _ hb => buy_then_sell_liquidates t1 t2 q2 p1 p2 b hup hb⟩

/-- Witness for C10 at a concrete input: BUY 10 'aapl' @ 50 on a fresh
100000-cash account followed by SELL 10 'AAPL' @ 60 empties the position
map. -/
theorem claim_c10_tickers_uppercase_witness :
    (((Account.init 100000).execute_trade "aapl" "BUY" 10 50).2.execute_trade
      "AAPL" "SELL" 10 60).2.positions = [] :=
  (claim_c10_tickers_uppercase (Account.init 100000) "x" "BUY" "x" "above" 1 1 1
      "aapl" "AAPL" 10 50 60 100000).2.2.2
    (by decide) (by decide) (by norm_num)

end StockDash
